import Mathlib

-- Verification development for the S-BrainXcan summary-statistics pipeline
-- (run_sbrainxcan.py): allele flip checking, GWAS/IDP-weight harmonization,
-- target rearrangement, per-chromosome accumulation, the D == 0 checker,
-- the empirical-null split, IDP loading filters, effect-size imputation from
-- z-scores, and genomic control.  Tables are shallowly embedded as lists of
-- row structures, numpy float arrays as lists of rationals (reals where a
-- square root is taken), and NaN entries as `Option` values.

namespace SBrainXcan

-- ## Alleles and the flip check (source: BASE_PAIR, _check_flip)

/-- The four single-character bases accepted by `BASE_PAIR`. -/
inductive Allele
  | A
  | C
  | G
  | T
deriving DecidableEq, Fintype, Repr

/-- Source dictionary `BASE_PAIR`: A->T, T->A, G->C, C->G. -/
def BASE_PAIR : Allele → Allele
  | .A => .T
  | .T => .A
  | .G => .C
  | .C => .G

/-- Source `_check_flip`.  A missing allele (`np.nan`) is `none`; the result
is `none` for NaN, `some 1` / `some (-1)` for same / opposite direction. -/
def _check_flip (a0 a1 b0 b1 : Option Allele) : Option ℤ :=
  match a0, a1, b0, b1 with
  | some a0, some a1, some b0, some b1 =>
    -- remove ambiguious first.
    if a0 = BASE_PAIR a1 ∨ b0 = BASE_PAIR b1 then none
    -- exact match
    else if a0 = b0 ∧ a1 = b1 then some 1
    -- flip
    else if a0 = b1 ∧ a1 = b0 then some (-1)
    -- compliment match
    else if a0 = BASE_PAIR b0 ∧ a1 = BASE_PAIR b1 then some 1
    -- compliment flip
    else if a0 = BASE_PAIR b1 ∧ a1 = BASE_PAIR b0 then some (-1)
    -- if all above does not return, it has to be invalid.
    else none
  | _, _, _, _ => none

/-- Complement mapping as worded in the specification: A<->T, G<->C. -/
def complement : Allele → Allele
  | .A => .T
  | .T => .A
  | .G => .C
  | .C => .G

/-- The flip check exactly as the specification words it, check by check and
in the specification's order (claim C1). -/
def claimCheckFlip (a0 a1 b0 b1 : Option Allele) : Option ℤ :=
  match a0, a1, b0, b1 with
  | some a0, some a1, some b0, some b1 =>
    if a0 = complement a1 ∨ b0 = complement b1 then none
    else if a0 = b0 ∧ a1 = b1 then some 1
    else if a0 = b1 ∧ a1 = b0 then some (-1)
    else if a0 = complement b0 ∧ a1 = complement b1 then some 1
    else if a0 = complement b1 ∧ a1 = complement b0 then some (-1)
    else none
  | _, _, _, _ => none

-- ## Keys and pandas merges

/-- A SNP key `(snpid, chr)`; identifiers are embedded as naturals. -/
abbrev SnpKey := ℕ × ℕ

/-- pandas inner merge on a key, nested-loop semantics: for each left row, in
order, every matching right row, in order. -/
def innerJoin (kL : α → SnpKey) (kR : β → SnpKey) (ls : List α) (rs : List β) :
    List (α × β) :=
  ls.flatMap fun l => (rs.filter fun r => kR r == kL l).map fun r => (l, r)

/-- pandas left merge on a key: an unmatched left row survives with missing
(`none`) right-hand fields. -/
def leftJoin (kL : α → SnpKey) (kR : β → SnpKey) (ls : List α) (rs : List β) :
    List (α × Option β) :=
  ls.flatMap fun l =>
    let ms := rs.filter fun r => kR r == kL l
    if ms.isEmpty then [(l, none)] else ms.map fun r => (l, some r)

/-- Uniqueness of `(snpid, chr)` keys within a table (the post-deduplication
invariant of the loaded tables). -/
abbrev UniqKeys (k : α → SnpKey) (l : List α) : Prop := (l.map k).Nodup

-- ## Table rows

/-- A loaded GWAS row (columns snpid, chr, effect_allele, non_effect_allele,
effect_size, effect_size_se). -/
structure GwasRow where
  snpid : ℕ
  chr : ℕ
  effect_allele : Option Allele
  non_effect_allele : Option Allele
  effect_size : ℚ
  effect_size_se : ℚ
deriving DecidableEq, Repr

/-- A loaded IDP weight row: key, alleles, and one weight per IDP column. -/
structure WeightRow where
  snpid : ℕ
  chr : ℕ
  effect_allele : Option Allele
  non_effect_allele : Option Allele
  weights : List ℚ
deriving DecidableEq, Repr

def GwasRow.key (g : GwasRow) : SnpKey := (g.snpid, g.chr)

def WeightRow.key (w : WeightRow) : SnpKey := (w.snpid, w.chr)

/-- The 4-column projection `[snpid, chr, effect_allele, non_effect_allele]`
taken by `harmonize_gwas_and_weight` before merging. -/
structure KeyAll where
  snpid : ℕ
  chr : ℕ
  effect_allele : Option Allele
  non_effect_allele : Option Allele
deriving DecidableEq, Repr

def KeyAll.key (c : KeyAll) : SnpKey := (c.snpid, c.chr)

def GwasRow.proj (g : GwasRow) : KeyAll :=
  ⟨g.snpid, g.chr, g.effect_allele, g.non_effect_allele⟩

def WeightRow.proj (w : WeightRow) : KeyAll :=
  ⟨w.snpid, w.chr, w.effect_allele, w.non_effect_allele⟩

/-- The flip factor of one joined (gwas, weight) pair: `check_flip` with the
GWAS alleles as `a` and the weight alleles as `b`. -/
def pairFlip (p : GwasRow × WeightRow) : Option ℤ :=
  _check_flip p.1.effect_allele p.1.non_effect_allele
    p.2.effect_allele p.2.non_effect_allele

-- ## harmonize_gwas_and_weight (source lines 79-117)

/-- Source `harmonize_gwas_and_weight`, step 1: `df_common`, the inner merge
of the two tables' 4-column projections on `(snpid, chr)` (suffixes
`_gwas`/`_weight` are the pair components). -/
def harmonize_common (gwas : List GwasRow) (weight : List WeightRow) :
    List (KeyAll × KeyAll) :=
  innerJoin KeyAll.key KeyAll.key
    (gwas.map GwasRow.proj) (weight.map WeightRow.proj)

/-- Source `harmonize_gwas_and_weight`, step 2: compute `flip_factor` over
`df_common` and remove the invalid (NaN) variants, keeping each surviving row
paired with its flip factor. -/
def harmonize_kept (gwas : List GwasRow) (weight : List WeightRow) :
    List ((KeyAll × KeyAll) × Option ℤ) :=
  ((harmonize_common gwas weight).zip
    ((harmonize_common gwas weight).map fun p =>
      _check_flip p.1.effect_allele p.1.non_effect_allele
        p.2.effect_allele p.2.non_effect_allele)).filter
    fun q => q.2.isSome

/-- Source `harmonize_gwas_and_weight`, step 3: the filtered `df_common` with
the gwas-suffixed allele columns dropped and the weight-suffixed allele
columns renamed to `effect_allele` / `non_effect_allele`. -/
def harmonize_common2 (gwas : List GwasRow) (weight : List WeightRow) :
    List KeyAll :=
  (harmonize_kept gwas weight).map fun q =>
    KeyAll.mk q.1.1.snpid q.1.1.chr q.1.2.effect_allele q.1.2.non_effect_allele

/-- Source `harmonize_gwas_and_weight`, step 3b: the filtered `flip_factor`
vector (a float vector of plus or minus ones in numpy). -/
def harmonize_flip_kept (gwas : List GwasRow) (weight : List WeightRow) :
    List ℚ :=
  (harmonize_kept gwas weight).map fun q => ((q.2.getD 0 : ℤ) : ℚ)

/-- Source `harmonize_gwas_and_weight` (lines 79-117): merge each input
table's value columns back onto the harmonized key/allele table, and multiply
the GWAS `effect_size` by the flip factor (positionally, as the numpy
elementwise product does).  The weight table's weight columns are returned
as merged, without any flip applied. -/
def harmonize_gwas_and_weight (gwas : List GwasRow) (weight : List WeightRow) :
    List GwasRow × List WeightRow :=
  let df_gwas0 := innerJoin KeyAll.key GwasRow.key
    (harmonize_common2 gwas weight) gwas
  let df_gwas := (df_gwas0.zip (harmonize_flip_kept gwas weight)).map fun q =>
    { snpid := q.1.1.snpid, chr := q.1.1.chr,
      effect_allele := q.1.1.effect_allele,
      non_effect_allele := q.1.1.non_effect_allele,
      effect_size := q.1.2.effect_size * q.2,
      effect_size_se := q.1.2.effect_size_se }
  let df_weight0 := innerJoin KeyAll.key WeightRow.key
    (harmonize_common2 gwas weight) weight
  let df_weight := df_weight0.map fun q =>
    { snpid := q.1.snpid, chr := q.1.chr,
      effect_allele := q.1.effect_allele,
      non_effect_allele := q.1.non_effect_allele,
      weights := q.2.weights }
  (df_gwas, df_weight)

/-- Specification form of the harmonization (with the C2 amendment): inner
join on `(snpid, chr)`, drop the SNPs with undetermined sign, return the GWAS
rows re-oriented to the weight alleles with `effect_size` multiplied by the
sign, and the matched weight rows unchanged. -/
def harmonizeSpecForm (gwas : List GwasRow) (weight : List WeightRow) :
    List GwasRow × List WeightRow :=
  let kept := (innerJoin GwasRow.key WeightRow.key gwas weight).filter
    fun p => (pairFlip p).isSome
  ( kept.map fun p =>
      { snpid := p.1.snpid, chr := p.1.chr,
        effect_allele := p.2.effect_allele,
        non_effect_allele := p.2.non_effect_allele,
        effect_size := p.1.effect_size * (((pairFlip p).getD 0 : ℤ) : ℚ),
        effect_size_se := p.1.effect_size_se },
    kept.map fun p => p.2 )

-- ## rearrage_df_by_target (source lines 50-77)

/-- A covariance-meta (target) row: key and reference alleles. -/
structure TRow where
  snpid : ℕ
  chr : ℕ
  effect_allele : Option Allele
  non_effect_allele : Option Allele
deriving DecidableEq, Repr

/-- A generic input row for `rearrage_df_by_target`: key, alleles, and the
designated value columns (NaN entries are `none`). -/
structure VRow where
  snpid : ℕ
  chr : ℕ
  effect_allele : Option Allele
  non_effect_allele : Option Allele
  vals : List (Option ℚ)
deriving DecidableEq, Repr

def TRow.key (t : TRow) : SnpKey := (t.snpid, t.chr)

def VRow.key (v : VRow) : SnpKey := (v.snpid, v.chr)

/-- numpy NaN-propagating multiplication of a value column entry by the flip
factor: NaN times anything, and anything times NaN, is NaN. -/
def optMul (s : Option ℤ) (x : Option ℚ) : Option ℚ :=
  match x, s with
  | some x, some s => some (x * (s : ℚ))
  | _, _ => none

/-- Source `rearrage_df_by_target`: left-merge the input table onto the
target's `[snpid, chr, effect_allele, non_effect_allele]` columns, compute
the flip factor of target alleles against input alleles (NaN when the input
row is missing), multiply every designated value column by it, and keep the
target's allele columns.  `ncols` is the number of designated value
columns. -/
def rearrage_df_by_target (df : List VRow) (target : List TRow) (ncols : ℕ) :
    List VRow :=
  (leftJoin TRow.key VRow.key target df).map fun p =>
    let f := _check_flip p.1.effect_allele p.1.non_effect_allele
      (p.2.bind VRow.effect_allele) (p.2.bind VRow.non_effect_allele)
    let vals0 := match p.2 with
      | some v => v.vals
      | none => List.replicate ncols none
    { snpid := p.1.snpid, chr := p.1.chr,
      effect_allele := p.1.effect_allele,
      non_effect_allele := p.1.non_effect_allele,
      vals := vals0.map (optMul f) }

/-- The flip factor `rearrage_df_by_target` uses for one target row: the
input row is looked up by key, and a missing row yields NaN alleles. -/
def flipAt (df : List VRow) (t : TRow) : Option ℤ :=
  let o := df.find? fun v => VRow.key v == TRow.key t
  _check_flip t.effect_allele t.non_effect_allele
    (o.bind VRow.effect_allele) (o.bind VRow.non_effect_allele)

-- ## Chromosome accumulation (source lines 389-442)

/-- The four accumulators of the chromosome loop: `D` (IDP x IDP matrix),
`numer_b` and `numer_z` (IDP-length float vectors) and `nsnp_used`
(IDP-length int vector). -/
structure SAccum (n : ℕ) where
  D : Fin n → Fin n → ℚ
  numer_b : Fin n → ℚ
  numer_z : Fin n → ℚ
  nsnp_used : Fin n → ℤ

/-- The `np.zeros` initialization of the accumulators. -/
def SAccum.zero (n : ℕ) : SAccum n :=
  ⟨fun _ _ => 0, fun _ => 0, fun _ => 0, fun _ => 0⟩

/-- One `+=` step of the chromosome loop: elementwise addition of a
per-chromosome contribution onto the accumulators. -/
def SAccum.add (x y : SAccum n) : SAccum n :=
  ⟨fun i j => x.D i j + y.D i j,
    fun i => x.numer_b i + y.numer_b i,
    fun i => x.numer_z i + y.numer_z i,
    fun i => x.nsnp_used i + y.nsnp_used i⟩

/-- The chromosome loop: start from zeros and add every per-chromosome
contribution in sequence. -/
def accumulate (cs : List (SAccum n)) : SAccum n :=
  cs.foldl SAccum.add (SAccum.zero n)

-- ## The D == 0 checker and marginal test (source lines 444-458)

/-- numpy `D.diagonal()` on a matrix stored as a list of rows. -/
def diagOf (M : List (List ℚ)) : List ℚ :=
  (List.range M.length).map fun i => (M.getD i []).getD i 0

/-- numpy boolean-mask indexing `xs[mask]`. -/
def maskFilter (m : List Bool) (xs : List α) : List α :=
  ((m.zip xs).filter fun p => p.1).map fun p => p.2

/-- The indices at which a boolean mask is true, in increasing order. -/
def trueIdx : List Bool → List ℕ
  | [] => []
  | b :: m => if b then 0 :: (trueIdx m).map (· + 1) else (trueIdx m).map (· + 1)

/-- The six objects the `D == 0` checker filters together. -/
structure MarginalArrays where
  D : List (List ℚ)
  numer_b : List ℚ
  numer_z : List ℚ
  idp_names : List ℕ
  nsnp_used : List ℤ
  nsnp_total : List ℤ
deriving DecidableEq, Repr

/-- Source `D == 0` checker: when some diagonal entry of `D` is zero, filter
`D` (both axes), `numer_b`, `numer_z`, the IDP name list, `nsnp_used` and
`nsnp_total` by the boolean mask `D.diagonal() != 0`; otherwise leave
everything untouched. -/
def dropBadPheno (a : MarginalArrays) : MarginalArrays :=
  let d := diagOf a.D
  let n_bad := (d.filter fun x => x == 0).length
  if 0 < n_bad then
    let good := d.map fun x => !(x == 0)
    { D := maskFilter good (a.D.map (maskFilter good)),
      numer_b := maskFilter good a.numer_b,
      numer_z := maskFilter good a.numer_z,
      idp_names := maskFilter good a.idp_names,
      nsnp_used := maskFilter good a.nsnp_used,
      nsnp_total := maskFilter good a.nsnp_total }
  else a

/-- Diagonal entry `i` of one chromosome's contribution
`D_chr = weight.T @ cov @ weight`, for `w` the SNP x IDP weight block and
`C` the SNP x SNP covariance block of that chromosome. -/
def quadDiag (w C : List (List ℚ)) (i : ℕ) : ℚ :=
  ((List.range w.length).map fun s =>
    ((List.range w.length).map fun t =>
      (w.getD s []).getD i 0 * (C.getD s []).getD t 0 *
        (w.getD t []).getD i 0).sum).sum

/-- Accumulated diagonal entry `i` of `D` over all chromosome blocks. -/
def accumDiag (blocks : List (List (List ℚ) × List (List ℚ))) (i : ℕ) : ℚ :=
  (blocks.map fun b => quadDiag b.1 b.2 i).sum

/-- `S_D = np.sqrt(D.diagonal())` of the marginal test; `beta_brainxcan`
divides by `S_D ** 2` and `z_brainxcan` divides by `S_D`. -/
noncomputable def S_D (d : List ℚ) : List ℝ :=
  d.map fun x : ℚ => Real.sqrt (x : ℝ)

-- ## The empirical-null split (source lines 459-463)

/-- Source lines 460-461, the split of the marginal z-score vector when
`--empirical_null` is on: `z_null = z_brainxcan[nrepeat_null:]` and
`z_brainxcan = z_brainxcan[:nrepeat_null]`, returned as
`(z_null, z_brainxcan)`. -/
def empNullSplit (z : List ℚ) (nrepeat_null : ℕ) : List ℚ × List ℚ :=
  (z.drop nrepeat_null, z.take nrepeat_null)

-- ## load_idp (source lines 240-255)

/-- The weight table handled by `load_idp`: the IDP column names (the
columns after the four meta columns, here abstracted) and the rows, each a
SNP identifier standing for the four meta columns plus the weights aligned
with the column names. -/
structure IdpData where
  colNames : List ℕ
  rows : List (ℕ × List ℚ)
deriving DecidableEq, Repr

/-- Column selection `df[cols_to_keep]` on the weight columns: pick, for
each kept name, that column's value of the row. -/
def selectCols (colNames keep : List ℕ) (ws : List ℚ) : List ℚ :=
  keep.map fun nm => ws.getD (colNames.indexOf nm) 0

/-- Source `load_idp`, filtering part: keep the performance rows with
`CV_Spearman >= spearman_cutoff`, keep exactly the weight columns named by
those rows, then drop every weight ROW whose selected weights sum to zero
(`df.iloc[:, 4:].values.sum(axis=1) != 0`).  Returns the filtered weight
table and the filtered performance table. -/
def load_idp (df : IdpData) (perf : List (ℕ × ℚ)) (cutoff : ℚ) :
    IdpData × List (ℕ × ℚ) :=
  let df_perf := perf.filter fun p => decide (cutoff ≤ p.2)
  let keep := df_perf.map Prod.fst
  let rows2 := df.rows.map fun r => (r.1, selectCols df.colNames keep r.2)
  ({ colNames := keep, rows := rows2.filter fun r => !(r.2.sum == 0) },
    df_perf)

-- ## impute_b_from_z (source lines 184-191)

/-- Source `impute_b_from_z`: raise on any negative sample size, then on any
allele frequency at or above 1 or at or below 0; otherwise return
`bhat = zscore * se` and `se = 1 / sqrt(2 * n * af * (1 - af))`,
elementwise. -/
noncomputable def impute_b_from_z (zscore af n : List ℚ) :
    Except String (List ℝ × List ℝ) :=
  if 0 < (n.filter fun x => decide (x < 0)).length then
    .error "There are sample size < 0"
  else if (af.filter fun x => decide (1 ≤ x)).length ≠ 0 ∨
      (af.filter fun x => decide (x ≤ 0)).length ≠ 0 then
    .error "There are af outside (0, 1)."
  else
    let se := (af.zip n).map fun p =>
      1 / Real.sqrt (2 * (p.2 : ℝ) * (p.1 : ℝ) * (1 - (p.1 : ℝ)))
    .ok ((zscore.zip se).map fun p => (p.1 : ℝ) * p.2, se)

-- ## genomic_control (source lines 262-267)

open Classical in
/-- Insertion of one element into a sorted list of reals. -/
noncomputable def insertSorted (x : ℝ) : List ℝ → List ℝ
  | [] => [x]
  | y :: ys => if x ≤ y then x :: y :: ys else y :: insertSorted x ys

/-- Sorting a list of reals (what `np.median` does internally). -/
noncomputable def sortReal : List ℝ → List ℝ
  | [] => []
  | x :: xs => insertSorted x (sortReal xs)

/-- numpy `np.median`: the middle element of the sorted vector for odd
length, the average of the two middle elements for even length. -/
noncomputable def npMedian (l : List ℝ) : ℝ :=
  if l.length % 2 = 1 then (sortReal l).getD (l.length / 2) 0
  else
    ((sortReal l).getD (l.length / 2 - 1) 0 +
      (sortReal l).getD (l.length / 2) 0) / 2

/-- Source constant `GC_NUMBER = 0.456`. -/
noncomputable def GC_NUMBER : ℝ := 0.456

/-- Source `genomic_control`: `chisq = zscore ** 2`,
`lambda_gc = median(chisq) / GC_NUMBER`, `chisq_adj = chisq / lambda_gc`,
`z_adj = sqrt(chisq_adj) * sign(zscore)`; returns `(z_adj, lambda_gc)`. -/
noncomputable def genomic_control (zscore : List ℝ) : List ℝ × ℝ :=
  let chisq := zscore.map fun z => z ^ 2
  let lambda_gc := npMedian chisq / GC_NUMBER
  let chisq_adj := chisq.map fun c => c / lambda_gc
  ((chisq_adj.zip zscore).map fun p => Real.sqrt p.1 * Real.sign p.2,
    lambda_gc)

-- ## Theorems

/-- C1: for every four allele values (single-character base or missing),
`_check_flip` returns exactly what the specification's ordered checks
prescribe, and the result is always +1, -1 or NaN. -/
theorem check_flip_meets_claim :
    ∀ a0 a1 b0 b1 : Option Allele,
      _check_flip a0 a1 b0 b1 = claimCheckFlip a0 a1 b0 b1 ∧
      (_check_flip a0 a1 b0 b1 = some 1 ∨ _check_flip a0 a1 b0 b1 = some (-1) ∨
        _check_flip a0 a1 b0 b1 = none) := by
  decide

-- Merge helper lemmas

theorem mem_innerJoin {kL : α → SnpKey} {kR : β → SnpKey} {ls : List α}
    {rs : List β} {p : α × β} (h : p ∈ innerJoin kL kR ls rs) :
    p.1 ∈ ls ∧ p.2 ∈ rs ∧ kR p.2 = kL p.1 := by
  simp only [innerJoin, List.mem_flatMap, List.mem_map, List.mem_filter] at h
  obtain ⟨l, hl, r, ⟨hr, hk⟩, hp⟩ := h
  subst hp
  exact ⟨hl, hr, by simpa using hk⟩

theorem filter_key_unique {kR : β → SnpKey} {rs : List β}
    (hu : UniqKeys kR rs) (k : SnpKey) :
    (rs.filter fun r => kR r == k) = (rs.find? fun r => kR r == k).toList := by
  induction rs with
  | nil => rfl
  | cons r rs ih =>
    obtain ⟨hnot, htail⟩ := List.nodup_cons.mp hu
    by_cases hk : kR r = k
    · have hfil : (rs.filter fun x => kR x == k) = [] := by
        rw [List.filter_eq_nil_iff]
        intro x hx hbeq
        exact hnot (by
          have : kR x = k := by simpa using hbeq
          rw [← hk] at this
          exact this ▸ List.mem_map_of_mem kR hx)
      simp [List.filter_cons, List.find?_cons, hk, hfil]
    · have hbeq : (kR r == k) = false := by simpa using hk
      simp [List.filter_cons, List.find?_cons, hbeq, ih htail]

theorem find?_key_self {kR : β → SnpKey} {rs : List β}
    (hu : UniqKeys kR rs) {r₀ : β} (hr : r₀ ∈ rs) :
    (rs.find? fun r => kR r == kR r₀) = some r₀ := by
  induction rs with
  | nil => cases hr
  | cons r rs ih =>
    obtain ⟨hnot, htail⟩ := List.nodup_cons.mp hu
    rcases List.mem_cons.mp hr with h | h
    · subst h
      simp
    · have hne : kR r ≠ kR r₀ := fun he =>
        hnot (he ▸ List.mem_map_of_mem kR h)
      have hbeq : (kR r == kR r₀) = false := by simpa using hne
      simp [List.find?_cons, hbeq, ih htail h]

theorem innerJoin_eq_filterMap {kL : α → SnpKey} {kR : β → SnpKey}
    {ls : List α} {rs : List β} (hu : UniqKeys kR rs) :
    innerJoin kL kR ls rs =
      ls.filterMap fun l =>
        (rs.find? fun r => kR r == kL l).map fun r => (l, r) := by
  unfold innerJoin
  induction ls with
  | nil => rfl
  | cons l ls ih =>
    rw [List.flatMap_cons, List.filterMap_cons, ih]
    rw [filter_key_unique hu (kL l)]
    cases rs.find? fun r => kR r == kL l <;> simp

theorem leftJoin_eq_map {kL : α → SnpKey} {kR : β → SnpKey}
    {ls : List α} {rs : List β} (hu : UniqKeys kR rs) :
    leftJoin kL kR ls rs =
      ls.map fun l => (l, rs.find? fun r => kR r == kL l) := by
  unfold leftJoin
  induction ls with
  | nil => rfl
  | cons l ls ih =>
    rw [List.flatMap_cons, List.map_cons, ih]
    rw [filter_key_unique hu (kL l)]
    cases rs.find? fun r => kR r == kL l <;> simp

theorem filterMap_eq_map_of_mem {F : α → Option β} {G : α → β} {l : List α}
    (h : ∀ x ∈ l, F x = some (G x)) : l.filterMap F = l.map G := by
  induction l with
  | nil => rfl
  | cons a l ih =>
    rw [List.filterMap_cons, h a (List.mem_cons_self a l), List.map_cons,
      ih fun x hx => h x (List.mem_cons_of_mem a hx)]

theorem innerJoin_map_map {α α' β β' : Type _} {kL : α' → SnpKey}
    {kR : β' → SnpKey} (f : α → α') (g : β → β') (ls : List α) (rs : List β) :
    innerJoin kL kR (ls.map f) (rs.map g) =
      (innerJoin (fun a => kL (f a)) (fun b => kR (g b)) ls rs).map
        fun p => (f p.1, g p.2) := by
  unfold innerJoin
  rw [List.flatMap_map, List.map_flatMap]
  refine List.flatMap_congr fun l _ => ?_
  rw [List.filter_map, List.map_map, List.map_map]
  rfl

theorem innerJoin_map_left {α α' β : Type _} {kL : α' → SnpKey}
    {kR : β → SnpKey} (f : α → α') (ls : List α) (rs : List β) :
    innerJoin kL kR (ls.map f) rs =
      (innerJoin (fun a => kL (f a)) kR ls rs).map fun p => (f p.1, p.2) := by
  unfold innerJoin
  rw [List.flatMap_map, List.map_flatMap]
  refine List.flatMap_congr fun l _ => ?_
  rw [List.map_map]
  rfl

-- Characterization of the harmonization pipeline under unique keys

theorem harmonize_kept_char (gwas : List GwasRow) (weight : List WeightRow) :
    harmonize_kept gwas weight =
      ((innerJoin GwasRow.key WeightRow.key gwas weight).filter
        fun p => (pairFlip p).isSome).map
        fun p => ((GwasRow.proj p.1, WeightRow.proj p.2), pairFlip p) := by
  unfold harmonize_kept harmonize_common
  rw [innerJoin_map_map GwasRow.proj WeightRow.proj, List.map_map,
    List.zip_map', List.filter_map]
  rfl

theorem harmonize_common2_char (gwas : List GwasRow) (weight : List WeightRow) :
    harmonize_common2 gwas weight =
      ((innerJoin GwasRow.key WeightRow.key gwas weight).filter
        fun p => (pairFlip p).isSome).map
        fun p =>
          KeyAll.mk p.1.snpid p.1.chr p.2.effect_allele
            p.2.non_effect_allele := by
  unfold harmonize_common2
  rw [harmonize_kept_char, List.map_map]
  rfl

theorem harmonize_flip_kept_char (gwas : List GwasRow)
    (weight : List WeightRow) :
    harmonize_flip_kept gwas weight =
      ((innerJoin GwasRow.key WeightRow.key gwas weight).filter
        fun p => (pairFlip p).isSome).map
        fun p => (((pairFlip p).getD 0 : ℤ) : ℚ) := by
  unfold harmonize_flip_kept
  rw [harmonize_kept_char, List.map_map]
  rfl

theorem harmonize_gwas0_char (gwas : List GwasRow) (weight : List WeightRow)
    (hg : UniqKeys GwasRow.key gwas) :
    innerJoin KeyAll.key GwasRow.key (harmonize_common2 gwas weight) gwas =
      ((innerJoin GwasRow.key WeightRow.key gwas weight).filter
        fun p => (pairFlip p).isSome).map
        fun p =>
          (KeyAll.mk p.1.snpid p.1.chr p.2.effect_allele p.2.non_effect_allele,
            p.1) := by
  rw [harmonize_common2_char, innerJoin_map_left, innerJoin_eq_filterMap hg]
  have hmem : ∀ p ∈ (innerJoin GwasRow.key WeightRow.key gwas weight).filter
      (fun p => (pairFlip p).isSome),
      ((gwas.find? fun r => GwasRow.key r ==
          KeyAll.key (KeyAll.mk p.1.snpid p.1.chr p.2.effect_allele
            p.2.non_effect_allele)).map fun r => (p, r)) = some (p, p.1) := by
    intro p hp
    obtain ⟨h1, _, _⟩ := mem_innerJoin (List.mem_of_mem_filter hp)
    show (gwas.find? fun r => GwasRow.key r == GwasRow.key p.1).map
        (fun r => (p, r)) = some (p, p.1)
    rw [find?_key_self hg h1]
    rfl
  rw [filterMap_eq_map_of_mem hmem, List.map_map]
  rfl

theorem harmonize_weight0_char (gwas : List GwasRow) (weight : List WeightRow)
    (hw : UniqKeys WeightRow.key weight) :
    innerJoin KeyAll.key WeightRow.key (harmonize_common2 gwas weight)
        weight =
      ((innerJoin GwasRow.key WeightRow.key gwas weight).filter
        fun p => (pairFlip p).isSome).map
        fun p =>
          (KeyAll.mk p.1.snpid p.1.chr p.2.effect_allele p.2.non_effect_allele,
            p.2) := by
  rw [harmonize_common2_char, innerJoin_map_left, innerJoin_eq_filterMap hw]
  have hmem : ∀ p ∈ (innerJoin GwasRow.key WeightRow.key gwas weight).filter
      (fun p => (pairFlip p).isSome),
      ((weight.find? fun r => WeightRow.key r ==
          KeyAll.key (KeyAll.mk p.1.snpid p.1.chr p.2.effect_allele
            p.2.non_effect_allele)).map fun r => (p, r)) = some (p, p.2) := by
    intro p hp
    obtain ⟨_, h2, h3⟩ := mem_innerJoin (List.mem_of_mem_filter hp)
    have hpred : (fun r => WeightRow.key r ==
        KeyAll.key (KeyAll.mk p.1.snpid p.1.chr p.2.effect_allele
          p.2.non_effect_allele)) =
        fun r => WeightRow.key r == WeightRow.key p.2 := by
      funext r
      rw [h3]
      rfl
    rw [hpred, find?_key_self hw h2]
    rfl
  rw [filterMap_eq_map_of_mem hmem, List.map_map]
  rfl

/-- Under unique keys the whole harmonization equals its specification form
(with the C2 amendment: the flip factor multiplies only the GWAS
`effect_size`; the weight rows come through unchanged). -/
theorem harmonize_eq_specForm (gwas : List GwasRow) (weight : List WeightRow)
    (hg : UniqKeys GwasRow.key gwas) (hw : UniqKeys WeightRow.key weight) :
    harmonize_gwas_and_weight gwas weight = harmonizeSpecForm gwas weight := by
  simp only [harmonize_gwas_and_weight, harmonizeSpecForm]
  rw [harmonize_gwas0_char gwas weight hg, harmonize_weight0_char gwas weight hw,
    harmonize_flip_kept_char, List.zip_map', List.map_map, List.map_map]
  rw [Prod.mk.injEq]
  constructor
  · rfl
  · refine List.map_congr_left fun p hp => ?_
    obtain ⟨_, _, h3⟩ := mem_innerJoin (List.mem_of_mem_filter hp)
    have hs : p.2.snpid = p.1.snpid := congrArg Prod.fst h3
    have hc : p.2.chr = p.1.chr := congrArg Prod.snd h3
    show WeightRow.mk p.1.snpid p.1.chr p.2.effect_allele
        p.2.non_effect_allele p.2.weights = p.2
    rw [← hs, ← hc]

/-- C2 counterexample: on a swapped-orientation SNP (GWAS alleles A/C,
weight alleles C/A) the sign multiplier is -1 and it is applied to the GWAS
`effect_size`, but the weight column of the returned weight table is NOT
multiplied by the sign: the weight stays 5, not -1 * 5 as the claim
states. -/
theorem harmonize_weights_not_flipped :
    pairFlip (⟨1, 1, some .A, some .C, 1, 1⟩, ⟨1, 1, some .C, some .A, [5]⟩) =
        some (-1) ∧
    harmonize_gwas_and_weight [⟨1, 1, some .A, some .C, 1, 1⟩]
        [⟨1, 1, some .C, some .A, [5]⟩] =
      ([⟨1, 1, some .C, some .A, -1, 1⟩], [⟨1, 1, some .C, some .A, [5]⟩]) ∧
    ((5 : ℚ) ≠ ((-1 : ℤ) : ℚ) * 5) := by
  refine ⟨by decide, ?_, by norm_num⟩
  norm_num +decide [harmonize_gwas_and_weight, harmonize_common2,
    harmonize_flip_kept,
    harmonize_kept, harmonize_common, innerJoin, _check_flip, BASE_PAIR,
    GwasRow.proj, WeightRow.proj, KeyAll.key, GwasRow.key, WeightRow.key,
    pairFlip]

/-- C2 (amended): for every GWAS table and weight table with unique
`(snpid, chr)` keys, `harmonize_gwas_and_weight` inner-joins the two tables
on `(snpid, chr)`, drops every SNP whose sign multiplier is undetermined,
applies the sign multiplier to the GWAS `effect_size` column only (the IDP
weight columns are returned unchanged), and sets the allele columns of both
outputs to the weight table's orientation. -/
theorem harmonize_gwas_and_weight_amended (gwas : List GwasRow)
    (weight : List WeightRow) (hg : UniqKeys GwasRow.key gwas)
    (hw : UniqKeys WeightRow.key weight) :
    harmonize_gwas_and_weight gwas weight = harmonizeSpecForm gwas weight :=
  harmonize_eq_specForm gwas weight hg hw

/-- C2 witness: the amended theorem applied at a concrete input. -/
theorem harmonize_gwas_and_weight_amended_witness :
    UniqKeys GwasRow.key
        [⟨1, 1, some .A, some .C, 1, 1⟩, ⟨2, 1, some .G, some .A, 2, 1⟩] ∧
    UniqKeys WeightRow.key [⟨1, 1, some .C, some .A, [5]⟩] ∧
    harmonize_gwas_and_weight
        [⟨1, 1, some .A, some .C, 1, 1⟩, ⟨2, 1, some .G, some .A, 2, 1⟩]
        [⟨1, 1, some .C, some .A, [5]⟩] =
      harmonizeSpecForm
        [⟨1, 1, some .A, some .C, 1, 1⟩, ⟨2, 1, some .G, some .A, 2, 1⟩]
        [⟨1, 1, some .C, some .A, [5]⟩] :=
  ⟨by decide, by decide,
    harmonize_gwas_and_weight_amended _ _ (by decide) (by decide)⟩

/-- C10: for every GWAS table and weight table with unique `(snpid, chr)`
keys, the two tables returned by `harmonize_gwas_and_weight` are row-aligned:
same length, and identical snpid, chr, effect_allele and non_effect_allele
at every row index. -/
theorem harmonize_row_aligned (gwas : List GwasRow) (weight : List WeightRow)
    (hg : UniqKeys GwasRow.key gwas) (hw : UniqKeys WeightRow.key weight) :
    (harmonize_gwas_and_weight gwas weight).1.length =
      (harmonize_gwas_and_weight gwas weight).2.length ∧
    ∀ j, ∀ d1 : GwasRow, ∀ d2 : WeightRow,
      j < (harmonize_gwas_and_weight gwas weight).1.length →
      ((harmonize_gwas_and_weight gwas weight).1.getD j d1).snpid =
          ((harmonize_gwas_and_weight gwas weight).2.getD j d2).snpid ∧
      ((harmonize_gwas_and_weight gwas weight).1.getD j d1).chr =
          ((harmonize_gwas_and_weight gwas weight).2.getD j d2).chr ∧
      ((harmonize_gwas_and_weight gwas weight).1.getD j d1).effect_allele =
          ((harmonize_gwas_and_weight gwas weight).2.getD j d2).effect_allele ∧
      ((harmonize_gwas_and_weight gwas weight).1.getD j
            d1).non_effect_allele =
          ((harmonize_gwas_and_weight gwas weight).2.getD j
            d2).non_effect_allele := by
  rw [harmonize_eq_specForm gwas weight hg hw]
  simp only [harmonizeSpecForm, List.length_map]
  refine ⟨trivial, ?_⟩
  intro j d1 d2 hj
  have hjK : j < ((innerJoin GwasRow.key WeightRow.key gwas weight).filter
      fun p => (pairFlip p).isSome).length := hj
  have h5 := List.getElem?_eq_getElem hjK
  simp only [List.getD_eq_getElem?_getD, List.getElem?_map, h5,
    Option.map_some', Option.getD_some]
  have hmem : ((innerJoin GwasRow.key WeightRow.key gwas weight).filter
      fun p => (pairFlip p).isSome)[j] ∈
      (innerJoin GwasRow.key WeightRow.key gwas weight).filter
        fun p => (pairFlip p).isSome := List.getElem_mem hjK
  obtain ⟨_, _, h3⟩ := mem_innerJoin (List.mem_of_mem_filter hmem)
  exact ⟨(congrArg Prod.fst h3).symm, (congrArg Prod.snd h3).symm, trivial,
    trivial⟩

/-- C10 witness: row alignment at a concrete input. -/
theorem harmonize_row_aligned_witness :
    UniqKeys GwasRow.key [⟨1, 1, some .A, some .G, 2, 3⟩] ∧
    UniqKeys WeightRow.key [⟨1, 1, some .A, some .G, [7]⟩] ∧
    (harmonize_gwas_and_weight [⟨1, 1, some .A, some .G, 2, 3⟩]
        [⟨1, 1, some .A, some .G, [7]⟩]).1.length =
      (harmonize_gwas_and_weight [⟨1, 1, some .A, some .G, 2, 3⟩]
        [⟨1, 1, some .A, some .G, [7]⟩]).2.length :=
  ⟨by decide, by decide,
    (harmonize_row_aligned _ _ (by decide) (by decide)).1⟩

-- rearrage_df_by_target (C3)

theorem optMul_none (x : Option ℚ) : optMul none x = none := by
  cases x <;> rfl

theorem rearrage_char (df : List VRow) (target : List TRow) (ncols : ℕ)
    (hdf : UniqKeys VRow.key df) :
    rearrage_df_by_target df target ncols =
      target.map fun t =>
        { snpid := t.snpid, chr := t.chr,
          effect_allele := t.effect_allele,
          non_effect_allele := t.non_effect_allele,
          vals :=
            (match df.find? fun v => VRow.key v == TRow.key t with
              | some v => v.vals
              | none => List.replicate ncols none).map
              (optMul (flipAt df t)) } := by
  unfold rearrage_df_by_target
  rw [leftJoin_eq_map hdf, List.map_map]
  rfl

/-- C3: for every input table and target table with unique `(snpid, chr)`
keys (and value rows of width `ncols`), `rearrage_df_by_target` returns a
table whose row count and `(snpid, chr)` sequence equal the target's
exactly; every row still carries `ncols` value columns; and a target row
whose SNP is absent from the input, or whose alleles harmonize to an
undetermined sign, has NaN in every designated value column rather than
being dropped. -/
theorem rearrage_df_by_target_claim (df : List VRow) (target : List TRow)
    (ncols : ℕ) (hdf : UniqKeys VRow.key df) (ht : UniqKeys TRow.key target)
    (hv : ∀ v ∈ df, v.vals.length = ncols) :
    (rearrage_df_by_target df target ncols).length = target.length ∧
    (∀ j, ∀ dV : VRow, ∀ dT : TRow, j < target.length →
      ((rearrage_df_by_target df target ncols).getD j dV).snpid =
          (target.getD j dT).snpid ∧
      ((rearrage_df_by_target df target ncols).getD j dV).chr =
          (target.getD j dT).chr) ∧
    (∀ j, ∀ dV : VRow, j < target.length →
      ((rearrage_df_by_target df target ncols).getD j dV).vals.length =
        ncols) ∧
    (∀ j, ∀ dV : VRow, ∀ dT : TRow, j < target.length →
      flipAt df (target.getD j dT) = none →
      ((rearrage_df_by_target df target ncols).getD j dV).vals =
        List.replicate ncols none) := by
  have hlen0 : ∀ t : TRow,
      (match df.find? fun v => VRow.key v == TRow.key t with
        | some v => v.vals
        | none => List.replicate ncols none).length = ncols := by
    intro t
    cases h : df.find? fun v => VRow.key v == TRow.key t with
    | none => exact List.length_replicate ncols none
    | some v => exact hv v (List.mem_of_find?_eq_some h)
  refine ⟨?_, ?_, ?_, ?_⟩
  · rw [rearrage_char df target ncols hdf, List.length_map]
  · intro j dV dT hj
    have h5 := List.getElem?_eq_getElem hj
    rw [rearrage_char df target ncols hdf]
    simp only [List.getD_eq_getElem?_getD, List.getElem?_map, h5,
      Option.map_some', Option.getD_some]
    exact ⟨by trivial, by trivial⟩
  · intro j dV hj
    have h5 := List.getElem?_eq_getElem hj
    rw [rearrage_char df target ncols hdf]
    simp only [List.getD_eq_getElem?_getD, List.getElem?_map, h5,
      Option.map_some', Option.getD_some]
    rw [List.length_map]
    exact hlen0 _
  · intro j dV dT hj hf
    have h5 := List.getElem?_eq_getElem hj
    rw [rearrage_char df target ncols hdf]
    simp only [List.getD_eq_getElem?_getD, List.getElem?_map, h5,
      Option.map_some', Option.getD_some] at hf ⊢
    rw [hf]
    rw [List.map_congr_left fun x _ => optMul_none x, List.map_const']
    rw [hlen0]

/-- C3 witness: the claim at a concrete input whose second target row has no
counterpart in the input table. -/
theorem rearrage_df_by_target_claim_witness :
    UniqKeys VRow.key [⟨1, 1, some .A, some .C, [some 2]⟩] ∧
    UniqKeys TRow.key [⟨1, 1, some .A, some .C⟩, ⟨2, 1, some .A, some .C⟩] ∧
    (∀ v ∈ [(⟨1, 1, some .A, some .C, [some 2]⟩ : VRow)],
      v.vals.length = 1) ∧
    (rearrage_df_by_target [⟨1, 1, some .A, some .C, [some 2]⟩]
        [⟨1, 1, some .A, some .C⟩, ⟨2, 1, some .A, some .C⟩] 1).length = 2 :=
  ⟨by decide, by decide, by decide,
    (rearrage_df_by_target_claim _ _ 1 (by decide) (by decide)
      (by decide)).1⟩

-- Chromosome accumulation (C4)

theorem SAccum.ext' {n : ℕ} {x y : SAccum n} (hD : x.D = y.D)
    (hb : x.numer_b = y.numer_b) (hz : x.numer_z = y.numer_z)
    (hu : x.nsnp_used = y.nsnp_used) : x = y := by
  cases x
  cases y
  cases hD
  cases hb
  cases hz
  cases hu
  rfl

theorem SAccum.add_rc (z x y : SAccum n) :
    SAccum.add (SAccum.add z x) y = SAccum.add (SAccum.add z y) x := by
  unfold SAccum.add
  refine SAccum.ext' ?_ ?_ ?_ ?_
  · funext i j
    exact add_right_comm _ _ _
  · funext i
    exact add_right_comm _ _ _
  · funext i
    exact add_right_comm _ _ _
  · funext i
    exact add_right_comm _ _ _

theorem SAccum.add_zero' (x : SAccum n) :
    SAccum.add x (SAccum.zero n) = x := by
  unfold SAccum.add SAccum.zero
  refine SAccum.ext' ?_ ?_ ?_ ?_
  · funext i j
    exact add_zero _
  · funext i
    exact add_zero _
  · funext i
    exact add_zero _
  · funext i
    exact add_zero _

theorem SAccum.zero_add' (x : SAccum n) :
    SAccum.add (SAccum.zero n) x = x := by
  unfold SAccum.add SAccum.zero
  refine SAccum.ext' ?_ ?_ ?_ ?_
  · funext i j
    exact zero_add _
  · funext i
    exact zero_add _
  · funext i
    exact zero_add _
  · funext i
    exact zero_add _

theorem SAccum.add_assoc' (x y z : SAccum n) :
    SAccum.add (SAccum.add x y) z = SAccum.add x (SAccum.add y z) := by
  unfold SAccum.add
  refine SAccum.ext' ?_ ?_ ?_ ?_
  · funext i j
    exact add_assoc _ _ _
  · funext i
    exact add_assoc _ _ _
  · funext i
    exact add_assoc _ _ _
  · funext i
    exact add_assoc _ _ _

theorem accumulate_perm {n : ℕ} {cs cs' : List (SAccum n)}
    (h : cs.Perm cs') : accumulate cs = accumulate cs' :=
  List.Perm.foldl_eq' h
    (fun x _ y _ z => SAccum.add_rc z x y) (SAccum.zero n)

theorem foldl_add_init (ys : List (SAccum n)) :
    ∀ b : SAccum n,
      ys.foldl SAccum.add b = SAccum.add b (ys.foldl SAccum.add (SAccum.zero n)) := by
  induction ys with
  | nil =>
    intro b
    exact (SAccum.add_zero' b).symm
  | cons y ys ih =>
    intro b
    rw [List.foldl_cons, List.foldl_cons, ih (SAccum.add b y),
      ih (SAccum.add (SAccum.zero n) y), SAccum.zero_add',
      SAccum.add_assoc']

theorem accumulate_append (xs ys : List (SAccum n)) :
    accumulate (xs ++ ys) = SAccum.add (accumulate xs) (accumulate ys) := by
  unfold accumulate
  rw [List.foldl_append]
  exact foldl_add_init ys _

/-- C4: the accumulators `D`, `numer_b`, `numer_z` and `nsnp_used` are
combined across chromosomes by addition only, starting from zero: for every
assignment of per-chromosome contributions, any reordering (permutation) of
the contributions yields the same final accumulator values as sequential
processing, and accumulating over a partition of the contributions into
blocks equals adding the blocks' accumulations. -/
theorem accumulate_claim (n : ℕ) (cs cs' : List (SAccum n))
    (hperm : cs.Perm cs') :
    accumulate cs = accumulate cs' ∧
    ∀ xs ys : List (SAccum n),
      accumulate (xs ++ ys) = SAccum.add (accumulate xs) (accumulate ys) :=
  ⟨accumulate_perm hperm, fun xs ys => accumulate_append xs ys⟩

/-- C4 witness: two concrete per-chromosome contributions processed in
either order give the same accumulators. -/
theorem accumulate_claim_witness :
    (([⟨fun _ _ => 1, fun _ => 2, fun _ => 3, fun _ => 4⟩,
        ⟨fun _ _ => 5, fun _ => 6, fun _ => 7, fun _ => 8⟩] :
          List (SAccum 1)).Perm
      [⟨fun _ _ => 5, fun _ => 6, fun _ => 7, fun _ => 8⟩,
        ⟨fun _ _ => 1, fun _ => 2, fun _ => 3, fun _ => 4⟩]) ∧
    accumulate
        ([⟨fun _ _ => 1, fun _ => 2, fun _ => 3, fun _ => 4⟩,
          ⟨fun _ _ => 5, fun _ => 6, fun _ => 7, fun _ => 8⟩] :
            List (SAccum 1)) =
      accumulate
        [⟨fun _ _ => 5, fun _ => 6, fun _ => 7, fun _ => 8⟩,
          ⟨fun _ _ => 1, fun _ => 2, fun _ => 3, fun _ => 4⟩] :=
  ⟨List.Perm.swap _ _ _,
    (accumulate_claim 1 _ _ (List.Perm.swap _ _ _)).1⟩

-- Boolean-mask filtering lemmas (C5)

theorem maskFilter_cons (b : Bool) (m : List Bool) (x : α) (xs : List α) :
    maskFilter (b :: m) (x :: xs) =
      if b then x :: maskFilter m xs else maskFilter m xs := by
  cases b <;> simp [maskFilter]

theorem mem_of_mem_maskFilter {y : α} :
    ∀ {m : List Bool} {xs : List α}, y ∈ maskFilter m xs → y ∈ xs := by
  intro m
  induction m with
  | nil =>
    intro xs h
    simp [maskFilter] at h
  | cons b mtl ih =>
    intro xs h
    cases xs with
    | nil => simp [maskFilter] at h
    | cons x xtl =>
      rw [maskFilter_cons] at h
      cases b with
      | false => exact List.mem_cons_of_mem x (ih h)
      | true =>
        rcases List.mem_cons.mp (by simpa using h) with he | hm
        · exact he ▸ List.mem_cons_self x xtl
        · exact List.mem_cons_of_mem x (ih hm)

theorem maskFilter_map_self (f : α → Bool) (d : List α) :
    maskFilter (d.map f) d = d.filter f := by
  induction d with
  | nil => rfl
  | cons x d ih =>
    rw [List.map_cons, maskFilter_cons, List.filter_cons]
    cases h : f x <;> simp [h, ih]

theorem maskFilter_eq_map_getD (d₀ : α) :
    ∀ (m : List Bool) (xs : List α), m.length = xs.length →
      maskFilter m xs = (trueIdx m).map fun i => xs.getD i d₀ := by
  intro m
  induction m with
  | nil =>
    intro xs h
    rw [(List.length_eq_zero.mp h.symm : xs = [])]
    rfl
  | cons b mtl ih =>
    intro xs h
    cases xs with
    | nil => simp at h
    | cons x xtl =>
      have h' : mtl.length = xtl.length := by simpa using h
      rw [maskFilter_cons]
      cases b with
      | false =>
        show maskFilter mtl xtl =
          ((trueIdx mtl).map (· + 1)).map fun i => (x :: xtl).getD i d₀
        rw [List.map_map, ih xtl h']
        rfl
      | true =>
        show x :: maskFilter mtl xtl =
          (0 :: (trueIdx mtl).map (· + 1)).map fun i => (x :: xtl).getD i d₀
        rw [List.map_cons, List.map_map, ih xtl h']
        rfl

theorem trueIdx_lt : ∀ (m : List Bool), ∀ i ∈ trueIdx m, i < m.length := by
  intro m
  induction m with
  | nil => simp [trueIdx]
  | cons b mtl ih =>
    intro i hi
    cases b with
    | false =>
      have hi' : ∃ a ∈ trueIdx mtl, a + 1 = i := by simpa [trueIdx] using hi
      obtain ⟨j, hj, rfl⟩ := hi'
      exact Nat.succ_lt_succ (ih j hj)
    | true =>
      have hi' : i = 0 ∨ ∃ a ∈ trueIdx mtl, a + 1 = i := by
        simpa [trueIdx] using hi
      rcases hi' with h0 | ⟨j, hj, rfl⟩
      · subst h0
        exact Nat.succ_pos _
      · exact Nat.succ_lt_succ (ih j hj)

theorem map_range_getD (F : ℕ → α) :
    ∀ σ : List ℕ,
      (List.range σ.length).map (fun j => F (σ.getD j 0)) = σ.map F := by
  intro σ
  induction σ with
  | nil => rfl
  | cons a σ ih =>
    rw [List.length_cons, List.range_succ_eq_map, List.map_cons, List.map_map]
    rw [show ((fun j => F ((a :: σ).getD j 0)) ∘ Nat.succ) =
      fun j => F (σ.getD j 0) from rfl]
    rw [ih]
    rfl

theorem getD_map_lt (f : α → β) {l : List α} {i : ℕ} (h : i < l.length)
    (d : β) (d' : α) : (l.map f).getD i d = f (l.getD i d') := by
  rw [List.getD_eq_getElem?_getD, List.getElem?_map,
    List.getElem?_eq_getElem h, Option.map_some', Option.getD_some,
    List.getD_eq_getElem?_getD, List.getElem?_eq_getElem h, Option.getD_some]

theorem getD_range {n i : ℕ} (h : i < n) : (List.range n).getD i 0 = i := by
  rw [List.getD_eq_getElem?_getD,
    List.getElem?_eq_getElem (by simpa using h), Option.getD_some,
    List.getElem_range]

theorem getD_mem {l : List α} {i : ℕ} (h : i < l.length) (d : α) :
    l.getD i d ∈ l := by
  rw [List.getD_eq_getElem?_getD, List.getElem?_eq_getElem h, Option.getD_some]
  exact List.getElem_mem h

theorem diag_maskFilter (M : List (List ℚ)) (m : List Bool)
    (hm : m.length = M.length) (hsq : ∀ row ∈ M, row.length = M.length) :
    diagOf (maskFilter m (M.map (maskFilter m))) = maskFilter m (diagOf M) := by
  have hσlt : ∀ i ∈ trueIdx m, i < M.length := fun i hi =>
    hm ▸ trueIdx_lt m i hi
  have hL : maskFilter m (M.map (maskFilter m)) =
      (trueIdx m).map fun i => maskFilter m (M.getD i []) := by
    rw [maskFilter_eq_map_getD ([] : List ℚ) m (M.map (maskFilter m))
      (by rw [List.length_map]; exact hm)]
    exact List.map_congr_left fun i hi =>
      getD_map_lt (maskFilter m) (hσlt i hi) [] []
  have hR : maskFilter m (diagOf M) =
      (trueIdx m).map fun i => (M.getD i []).getD i 0 := by
    rw [maskFilter_eq_map_getD (0 : ℚ) m (diagOf M)
      (by unfold diagOf; rw [List.length_map, List.length_range]; exact hm)]
    refine List.map_congr_left fun i hi => ?_
    unfold diagOf
    rw [getD_map_lt _ (by rw [List.length_range]; exact hσlt i hi) 0 0,
      getD_range (hσlt i hi)]
  rw [hL, hR]
  unfold diagOf
  rw [List.length_map,
    ← map_range_getD (fun i => (M.getD i []).getD i 0) (trueIdx m)]
  refine List.map_congr_left fun j hj => ?_
  have hjlt : j < (trueIdx m).length := List.mem_range.mp hj
  have hmem : (trueIdx m).getD j 0 ∈ trueIdx m := getD_mem hjlt 0
  have hrowmem : M.getD ((trueIdx m).getD j 0) [] ∈ M :=
    getD_mem (hσlt _ hmem) []
  rw [getD_map_lt _ hjlt [] 0,
    maskFilter_eq_map_getD (0 : ℚ) m (M.getD ((trueIdx m).getD j 0) [])
      (by rw [hsq _ hrowmem]; exact hm),
    getD_map_lt _ hjlt 0 0]

theorem getD_not_mem_maskFilter :
    ∀ (m : List Bool) (xs : List α) (i : ℕ) (d : α),
      m.length = xs.length → i < xs.length → m.getD i false = false →
      xs.Nodup → xs.getD i d ∉ maskFilter m xs := by
  intro m
  induction m with
  | nil =>
    intro xs i d hlen hi _ _
    have h0 : xs.length = 0 := by simpa using hlen.symm
    exact absurd hi (by omega)
  | cons b mtl ih =>
    intro xs i d hlen hi hmask hnd
    cases xs with
    | nil => simp at hi
    | cons x xtl =>
      rw [maskFilter_cons]
      obtain ⟨hx, hnd'⟩ := List.nodup_cons.mp hnd
      have hlen' : mtl.length = xtl.length := by simpa using hlen
      cases i with
      | zero =>
        have hb : b = false := by simpa using hmask
        subst hb
        show x ∉ maskFilter mtl xtl
        intro hc
        exact hx (mem_of_mem_maskFilter hc)
      | succ j =>
        have hmask' : mtl.getD j false = false := by simpa using hmask
        have hj : j < xtl.length := by simpa using hi
        have hmain := ih xtl j d hlen' hj hmask' hnd'
        rw [List.getD_cons_succ]
        cases b with
        | false => exact hmain
        | true =>
          intro hc
          rw [if_pos rfl] at hc
          rcases List.mem_cons.mp hc with he | hmm2
          · exact hx (he ▸ getD_mem hj d)
          · exact hmain hmm2

theorem accumDiag_col_zero {blocks : List (List (List ℚ) × List (List ℚ))}
    {i : ℕ} (hz : ∀ b ∈ blocks, ∀ row ∈ b.1, row.getD i 0 = (0 : ℚ)) :
    accumDiag blocks i = 0 := by
  unfold accumDiag
  refine List.sum_eq_zero fun x hx => ?_
  obtain ⟨b, hb, rfl⟩ := List.mem_map.mp hx
  have hcol : ∀ s : ℕ, ((b.1.getD s []).getD i 0 : ℚ) = 0 := by
    intro s
    by_cases hlt : s < b.1.length
    · exact hz b hb _ (getD_mem hlt [])
    · have hnil : b.1.getD s [] = [] := by
        rw [List.getD_eq_getElem?_getD, List.getElem?_eq_none (by omega),
          Option.getD_none]
      rw [hnil]
      rfl
  unfold quadDiag
  refine List.sum_eq_zero fun u hu => ?_
  obtain ⟨s, hs, rfl⟩ := List.mem_map.mp hu
  refine List.sum_eq_zero fun v hv => ?_
  obtain ⟨t, ht, rfl⟩ := List.mem_map.mp hv
  rw [hcol s, zero_mul, zero_mul]

/-- C5: before the marginal-test ratios are computed, every IDP index with
accumulated `D[i,i] == 0` is removed, and `D`, `numer_b`, `numer_z`, the IDP
name list, `nsnp_used` and `nsnp_total` are all filtered by the same boolean
mask `D.diagonal() != 0`; consequently (here in a run where IDP `i`, whose
weight column is all zero in every chromosome block, is removed) the
divisors `S_D` (for z) and `S_D ** 2` (for beta) built from the filtered
diagonal are all nonzero, and IDP `i`'s name is excluded from the output. -/
theorem dropBadPheno_claim (a : MarginalArrays)
    (blocks : List (List (List ℚ) × List (List ℚ))) (i : ℕ)
    (hik : i < a.D.length)
    (hsq : ∀ row ∈ a.D, row.length = a.D.length)
    (hnamelen : a.idp_names.length = a.D.length)
    (hnd : a.idp_names.Nodup)
    (hdiag : diagOf a.D = (List.range a.D.length).map (accumDiag blocks))
    (hzero : ∀ b ∈ blocks, ∀ row ∈ b.1, row.getD i 0 = (0 : ℚ))
    (hnn : ∀ x ∈ diagOf a.D, 0 ≤ x) :
    dropBadPheno a =
      { D := maskFilter ((diagOf a.D).map fun x => !(x == 0))
          (a.D.map (maskFilter ((diagOf a.D).map fun x => !(x == 0)))),
        numer_b := maskFilter ((diagOf a.D).map fun x => !(x == 0)) a.numer_b,
        numer_z := maskFilter ((diagOf a.D).map fun x => !(x == 0)) a.numer_z,
        idp_names :=
          maskFilter ((diagOf a.D).map fun x => !(x == 0)) a.idp_names,
        nsnp_used :=
          maskFilter ((diagOf a.D).map fun x => !(x == 0)) a.nsnp_used,
        nsnp_total :=
          maskFilter ((diagOf a.D).map fun x => !(x == 0)) a.nsnp_total } ∧
    a.idp_names.getD i 0 ∉ (dropBadPheno a).idp_names ∧
    (∀ x ∈ diagOf (dropBadPheno a).D, x ≠ 0) ∧
    (∀ y ∈ S_D (diagOf (dropBadPheno a).D), y ≠ 0 ∧ y ^ 2 ≠ 0) := by
  have hdlen : (diagOf a.D).length = a.D.length := by
    unfold diagOf
    rw [List.length_map, List.length_range]
  have hdi : (diagOf a.D).getD i 0 = 0 := by
    rw [hdiag, getD_map_lt _ (by rw [List.length_range]; exact hik) 0 0,
      getD_range hik]
    exact accumDiag_col_zero hzero
  have hdmem : (0 : ℚ) ∈ diagOf a.D :=
    hdi ▸ getD_mem (by rw [hdlen]; exact hik) 0
  have hbranch : 0 < ((diagOf a.D).filter fun x => x == 0).length := by
    have hmf : (0 : ℚ) ∈ (diagOf a.D).filter fun x => x == 0 :=
      List.mem_filter.mpr ⟨hdmem, by simp⟩
    exact List.length_pos.mpr (List.ne_nil_of_mem hmf)
  have heq : dropBadPheno a =
      { D := maskFilter ((diagOf a.D).map fun x => !(x == 0))
          (a.D.map (maskFilter ((diagOf a.D).map fun x => !(x == 0)))),
        numer_b := maskFilter ((diagOf a.D).map fun x => !(x == 0)) a.numer_b,
        numer_z := maskFilter ((diagOf a.D).map fun x => !(x == 0)) a.numer_z,
        idp_names :=
          maskFilter ((diagOf a.D).map fun x => !(x == 0)) a.idp_names,
        nsnp_used :=
          maskFilter ((diagOf a.D).map fun x => !(x == 0)) a.nsnp_used,
        nsnp_total :=
          maskFilter ((diagOf a.D).map fun x => !(x == 0)) a.nsnp_total } := by
    simp only [dropBadPheno]
    rw [if_pos hbranch]
  have hdiag2 : diagOf (dropBadPheno a).D =
      (diagOf a.D).filter fun x => !(x == 0) := by
    rw [heq]
    show diagOf (maskFilter ((diagOf a.D).map fun x => !(x == 0))
        (a.D.map (maskFilter ((diagOf a.D).map fun x => !(x == 0))))) = _
    rw [diag_maskFilter a.D _ (by rw [List.length_map, hdlen]) hsq,
      maskFilter_map_self]
  have hnz : ∀ x ∈ diagOf (dropBadPheno a).D, x ≠ 0 := by
    intro x hx
    rw [hdiag2] at hx
    have hpred := (List.mem_filter.mp hx).2
    simpa using hpred
  have hsub : ∀ x ∈ diagOf (dropBadPheno a).D, x ∈ diagOf a.D := by
    intro x hx
    rw [hdiag2] at hx
    exact List.mem_of_mem_filter hx
  refine ⟨heq, ?_, hnz, ?_⟩
  · rw [heq]
    show a.idp_names.getD i 0 ∉
      maskFilter ((diagOf a.D).map fun x => !(x == 0)) a.idp_names
    refine getD_not_mem_maskFilter _ a.idp_names i 0 ?_
      (by rw [hnamelen]; exact hik) ?_ hnd
    · rw [List.length_map, hdlen, hnamelen]
    · rw [getD_map_lt _ (by rw [hdlen]; exact hik) false 0, hdi]
      simp
  · intro y hy
    simp only [S_D, List.mem_map] at hy
    obtain ⟨x, hx, rfl⟩ := hy
    have hxpos : (0 : ℝ) < (x : ℝ) := by
      have h1 : (0 : ℚ) < x :=
        lt_of_le_of_ne (hnn x (hsub x hx)) (Ne.symm (hnz x hx))
      exact_mod_cast h1
    have hs : Real.sqrt (x : ℝ) ≠ 0 := ne_of_gt (Real.sqrt_pos.mpr hxpos)
    exact ⟨hs, pow_ne_zero 2 hs⟩

/-- C5 witness: two IDPs, where IDP index 1 has an all-zero weight column in
the single chromosome block; the checker excludes its name (20) from the
output. -/
theorem dropBadPheno_claim_witness :
    (1 < ([[(1 : ℚ), 0], [0, 0]] : List (List ℚ)).length) ∧
    (diagOf [[(1 : ℚ), 0], [0, 0]] =
      (List.range ([[(1 : ℚ), 0], [0, 0]] : List (List ℚ)).length).map
        (accumDiag [([[(1 : ℚ), 0]], [[1]])])) ∧
    ([(10 : ℕ), 20].getD 1 0 ∉
      (dropBadPheno
        { D := [[(1 : ℚ), 0], [0, 0]], numer_b := [1, 2], numer_z := [3, 4],
          idp_names := [10, 20], nsnp_used := [5, 6],
          nsnp_total := [7, 8] }).idp_names) :=
  ⟨by norm_num,
    by norm_num [diagOf, accumDiag, quadDiag, List.range_succ],
    (dropBadPheno_claim
      { D := [[(1 : ℚ), 0], [0, 0]], numer_b := [1, 2], numer_z := [3, 4],
        idp_names := [10, 20], nsnp_used := [5, 6], nsnp_total := [7, 8] }
      [([[(1 : ℚ), 0]], [[1]])] 1
      (by norm_num)
      (by decide)
      (by decide)
      (by decide)
      (by norm_num [diagOf, accumDiag, quadDiag, List.range_succ])
      (by decide)
      (by decide)).2.1⟩

-- The empirical-null split (C6)

/-- C6: the claim says the trailing `nrepeat_null` z-scores (the appended
null columns) form the empirical null sample while the leading entries (the
real IDPs) are kept.  The code instead slices `z_null = z[nrepeat_null:]`
and `z_brainxcan = z[:nrepeat_null]`.  With 2 real IDPs (z-scores 10, 20)
and 3 null repeats (z-scores 1, 2, 3), the code yields null sample [2, 3]
and keeps [10, 20, 1], instead of the null sample [1, 2, 3] and kept
[10, 20] required by the claim and by the code's own column layout (the
null columns are appended last; line 492 reads
`df_weight.columns[-nrepeat_null:]`). -/
theorem empNullSplit_bug :
    empNullSplit [10, 20, 1, 2, 3] 3 = ([2, 3], [10, 20, 1]) ∧
    (([2, 3], [10, 20, 1]) : List ℚ × List ℚ) ≠ ([1, 2, 3], [10, 20]) := by
  decide

-- load_idp (C7)

/-- C7 counterexample: one IDP column (named 7, CV Spearman 1/2, cutoff
1/10) whose weight column is [1, -1] and sums to zero.  The claim says this
IDP is dropped from the returned weight table; `load_idp` keeps it — the
row-sum filter `df.iloc[:, 4:].values.sum(axis=1) != 0` filters SNP rows,
and both row sums (1 and -1) are nonzero. -/
theorem load_idp_keeps_zero_sum_column :
    load_idp { colNames := [7], rows := [(1, [1]), (2, [-1])] } [(7, 1/2)]
        (1/10) =
      ({ colNames := [7], rows := [(1, [1]), (2, [-1])] }, [(7, 1/2)]) ∧
    ((([(1, [(1 : ℚ)]), (2, [-1])] : List (ℕ × List ℚ)).map
        fun r => r.2.getD 0 0).sum = 0) ∧
    7 ∈ (load_idp { colNames := [7], rows := [(1, [1]), (2, [-1])] }
        [(7, 1/2)] (1/10)).1.colNames := by
  refine ⟨?_, by norm_num, by norm_num [load_idp]⟩
  norm_num [load_idp, selectCols]

/-- C7 (amended): `load_idp` removes every IDP model whose cross-validated
Spearman correlation is below the cutoff from both the weight table's
columns and the returned performance table, and additionally drops from the
returned weight table every SNP row whose selected weights sum to exactly
zero (not IDP columns with zero column sums). -/
theorem load_idp_amended (df : IdpData) (perf : List (ℕ × ℚ)) (cutoff : ℚ)
    (hnd : (perf.map Prod.fst).Nodup) :
    ((load_idp df perf cutoff).2 =
      perf.filter fun p => decide (cutoff ≤ p.2)) ∧
    (∀ p ∈ perf, p.2 < cutoff →
      p ∉ (load_idp df perf cutoff).2 ∧
      p.1 ∉ (load_idp df perf cutoff).1.colNames) ∧
    ((load_idp df perf cutoff).1.colNames =
      (load_idp df perf cutoff).2.map Prod.fst) ∧
    (∀ r ∈ (load_idp df perf cutoff).1.rows, r.2.sum ≠ 0) ∧
    (∀ r ∈ df.rows,
      (selectCols df.colNames ((load_idp df perf cutoff).1.colNames)
          r.2).sum ≠ 0 →
      (r.1, selectCols df.colNames ((load_idp df perf cutoff).1.colNames)
          r.2) ∈ (load_idp df perf cutoff).1.rows) := by
  refine ⟨rfl, ?_, rfl, ?_, ?_⟩
  · intro p hp hlt
    constructor
    · intro hc
      have h2 := (List.mem_filter.mp hc).2
      rw [decide_eq_true_iff] at h2
      exact absurd h2 (not_le.mpr hlt)
    · intro hc
      have hc' : p.1 ∈ (perf.filter fun p => decide (cutoff ≤ p.2)).map
          Prod.fst := hc
      obtain ⟨q, hq, hq1⟩ := List.mem_map.mp hc'
      have hqperf : q ∈ perf := List.mem_of_mem_filter hq
      have hqle := (List.mem_filter.mp hq).2
      rw [decide_eq_true_iff] at hqle
      have : q = p := List.inj_on_of_nodup_map hnd hqperf hp hq1
      subst this
      exact absurd hqle (not_le.mpr hlt)
  · intro r hr
    have h2 := (List.mem_filter.mp hr).2
    simpa using h2
  · intro r hr hsum
    refine List.mem_filter.mpr ⟨?_, by simpa using hsum⟩
    exact List.mem_map.mpr ⟨r, hr, rfl⟩

/-- C7 witness: the amended claim applied at a concrete input with one IDP
above and one below the cutoff. -/
theorem load_idp_amended_witness :
    (([(7, (1 : ℚ) / 2), (9, 1 / 100)].map Prod.fst).Nodup) ∧
    (load_idp { colNames := [7, 9], rows := [(1, [1, 0])] }
        [(7, 1 / 2), (9, 1 / 100)] (1 / 10)).2 =
      [(7, (1 : ℚ) / 2), (9, 1 / 100)].filter
        fun p => decide ((1 : ℚ) / 10 ≤ p.2) :=
  ⟨by decide,
    (load_idp_amended { colNames := [7, 9], rows := [(1, [1, 0])] }
      [(7, 1 / 2), (9, 1 / 100)] (1 / 10) (by decide)).1⟩

-- impute_b_from_z (C8)

theorem filter_pos_iff {p : ℚ → Prop} [DecidablePred p] {l : List ℚ} :
    0 < (l.filter fun x => decide (p x)).length ↔ ∃ x ∈ l, p x := by
  rw [List.length_pos]
  constructor
  · intro h
    obtain ⟨x, hx⟩ := List.exists_mem_of_ne_nil _ h
    have hm := List.mem_filter.mp hx
    exact ⟨x, hm.1, by simpa using hm.2⟩
  · rintro ⟨x, hx, hpx⟩
    exact List.ne_nil_of_mem (List.mem_filter.mpr ⟨hx, by simpa using hpx⟩)

/-- C8: `impute_b_from_z` raises an error exactly when some sample size is
negative or some allele frequency lies outside the open interval (0, 1);
when it returns, `se = 1 / sqrt(2 n af (1 - af))` and
`bhat = zscore * se` elementwise; and at zscore 2, af 3/10, n 10000 the
standard error is `1 / sqrt 4200` and the round trip `bhat / se`
recovers 2. -/
theorem impute_b_from_z_claim (zscore af n : List ℚ) :
    (((∃ x ∈ n, x < 0) ∨ ∃ a ∈ af, a ≤ 0 ∨ 1 ≤ a) ↔
      ∃ msg, impute_b_from_z zscore af n = .error msg) ∧
    (∀ bs ses, impute_b_from_z zscore af n = .ok (bs, ses) →
      ses = (af.zip n).map (fun p =>
        1 / Real.sqrt (2 * (p.2 : ℝ) * (p.1 : ℝ) * (1 - (p.1 : ℝ)))) ∧
      bs = (zscore.zip ses).map fun p => (p.1 : ℝ) * p.2) ∧
    (impute_b_from_z [2] [3 / 10] [10000] =
      .ok ([2 * (1 / Real.sqrt 4200)], [1 / Real.sqrt 4200])) ∧
    ((2 : ℝ) * (1 / Real.sqrt 4200)) / (1 / Real.sqrt 4200) = 2 := by
  refine ⟨?_, ?_, ?_, ?_⟩
  · constructor
    · intro h
      by_cases h1 : 0 < (n.filter fun x => decide (x < 0)).length
      · exact ⟨_, by simp only [impute_b_from_z]; rw [if_pos h1]⟩
      · have haf : ∃ a ∈ af, a ≤ 0 ∨ 1 ≤ a := by
          rcases h with hn | ha
          · exact absurd (filter_pos_iff.mpr hn) h1
          · exact ha
        have h2 : (af.filter fun x => decide (1 ≤ x)).length ≠ 0 ∨
            (af.filter fun x => decide (x ≤ 0)).length ≠ 0 := by
          obtain ⟨a, ha, hcase⟩ := haf
          rcases hcase with hle | hge
          · exact Or.inr (Nat.pos_iff_ne_zero.mp
              (filter_pos_iff.mpr ⟨a, ha, hle⟩))
          · exact Or.inl (Nat.pos_iff_ne_zero.mp
              (filter_pos_iff.mpr ⟨a, ha, hge⟩))
        exact ⟨_, by simp only [impute_b_from_z]; rw [if_neg h1, if_pos h2]⟩
    · rintro ⟨msg, hmsg⟩
      by_contra hnot
      have h1 : ¬ 0 < (n.filter fun x => decide (x < 0)).length := fun hp =>
        hnot (Or.inl (filter_pos_iff.mp hp))
      have h2 : ¬((af.filter fun x => decide (1 ≤ x)).length ≠ 0 ∨
          (af.filter fun x => decide (x ≤ 0)).length ≠ 0) := by
        rintro (hc | hc)
        · obtain ⟨a, ha, hle⟩ := filter_pos_iff.mp (Nat.pos_of_ne_zero hc)
          exact hnot (Or.inr ⟨a, ha, Or.inr hle⟩)
        · obtain ⟨a, ha, hge⟩ := filter_pos_iff.mp (Nat.pos_of_ne_zero hc)
          exact hnot (Or.inr ⟨a, ha, Or.inl hge⟩)
      simp only [impute_b_from_z] at hmsg
      rw [if_neg h1, if_neg h2] at hmsg
      exact absurd hmsg (by simp)
  · intro bs ses h
    simp only [impute_b_from_z] at h
    by_cases h1 : 0 < (n.filter fun x => decide (x < 0)).length
    · rw [if_pos h1] at h
      exact absurd h (by simp)
    rw [if_neg h1] at h
    by_cases h2 : (af.filter fun x => decide (1 ≤ x)).length ≠ 0 ∨
        (af.filter fun x => decide (x ≤ 0)).length ≠ 0
    · rw [if_pos h2] at h
      exact absurd h (by simp)
    rw [if_neg h2] at h
    have h3 := (Except.ok.inj h).symm
    obtain ⟨h4, h5⟩ := Prod.mk.injEq .. ▸ h3
    subst h5
    subst h4
    exact ⟨rfl, rfl⟩
  · have hne : ¬ 0 <
        (([10000] : List ℚ).filter fun x => decide (x < 0)).length := by
      decide
    have hne2 : ¬((([3 / 10] : List ℚ).filter
          fun x => decide (1 ≤ x)).length ≠ 0 ∨
        (([3 / 10] : List ℚ).filter fun x => decide (x ≤ 0)).length ≠ 0) := by
      norm_num
    simp only [impute_b_from_z]
    rw [if_neg hne, if_neg hne2]
    norm_num
  · have hs : (0 : ℝ) < Real.sqrt 4200 := Real.sqrt_pos.mpr (by norm_num)
    rw [mul_div_assoc, div_self (one_div_ne_zero (ne_of_gt hs)), mul_one]

/-- C8 witness: an allele frequency of 2 raises the error, and the round
trip at the claimed example recovers the z-score. -/
theorem impute_b_from_z_claim_witness :
    (∃ msg, impute_b_from_z [1] [2] [5] = .error msg) ∧
    ((2 : ℝ) * (1 / Real.sqrt 4200)) / (1 / Real.sqrt 4200) = 2 :=
  ⟨(impute_b_from_z_claim [1] [2] [5]).1.mp
      (Or.inr ⟨2, by simp, Or.inr (by norm_num)⟩),
    (impute_b_from_z_claim [] [] []).2.2.2⟩

-- genomic_control (C9)

theorem npMedian_singleton (a : ℝ) : npMedian [a] = a := by
  simp [npMedian, sortReal, insertSorted]

theorem zip_self_map (f : α → β) :
    ∀ l : List α, (l.map f).zip l = l.map fun x => (f x, x) := by
  intro l
  induction l with
  | nil => rfl
  | cons x xs ih =>
    rw [List.map_cons, List.map_cons, List.zip_cons_cons, ih]

theorem abs_mul_sign (x : ℝ) : |x| * Real.sign x = x := by
  rcases lt_trichotomy x 0 with h | h | h
  · rw [Real.sign_of_neg h, abs_of_neg h]
    ring
  · subst h
    simp [Real.sign_zero]
  · rw [Real.sign_of_pos h, abs_of_pos h]
    ring

/-- C9: for every non-empty z-score vector, `genomic_control` returns
`lambda_gc = median(z^2) / 0.456` and the adjusted vector with
`z_adj[i] = sqrt(z[i]^2 / lambda_gc) * sign(z[i])`; whenever `median(z^2)`
equals 0.456, `lambda_gc` is 1 and the adjusted vector equals the input
elementwise. -/
theorem genomic_control_claim (z : List ℝ) (hz : z ≠ []) :
    (genomic_control z).2 = npMedian (z.map fun x => x ^ 2) / GC_NUMBER ∧
    (genomic_control z).1 = (z.map fun zi =>
      Real.sqrt (zi ^ 2 / (npMedian (z.map fun x => x ^ 2) / GC_NUMBER)) *
        Real.sign zi) ∧
    (npMedian (z.map fun x => x ^ 2) = GC_NUMBER →
      (genomic_control z).2 = 1 ∧ (genomic_control z).1 = z) := by
  have h1 : (genomic_control z).2 =
      npMedian (z.map fun x => x ^ 2) / GC_NUMBER := rfl
  have h2 : (genomic_control z).1 = z.map fun zi =>
      Real.sqrt (zi ^ 2 / (npMedian (z.map fun x => x ^ 2) / GC_NUMBER)) *
        Real.sign zi := by
    simp only [genomic_control]
    rw [List.map_map, zip_self_map, List.map_map]
    rfl
  refine ⟨h1, h2, fun hmed => ?_⟩
  have hgc : GC_NUMBER ≠ 0 := by
    norm_num [GC_NUMBER]
  have hlam : npMedian (z.map fun x => x ^ 2) / GC_NUMBER = 1 := by
    rw [hmed]
    exact div_self hgc
  constructor
  · rw [h1, hlam]
  · rw [h2]
    simp only [hlam, div_one]
    have hid : ∀ zi : ℝ, Real.sqrt (zi ^ 2) * Real.sign zi = zi := by
      intro zi
      rw [Real.sqrt_sq_eq_abs]
      exact abs_mul_sign zi
    calc z.map (fun zi => Real.sqrt (zi ^ 2) * Real.sign zi)
        = z.map id := List.map_congr_left fun zi _ => hid zi
      _ = z := List.map_id z

/-- C9 witness: the single z-score `sqrt 0.456` has `median(z^2) = 0.456`,
so the genomic control is the identity on it. -/
theorem genomic_control_claim_witness :
    ([Real.sqrt GC_NUMBER] ≠ ([] : List ℝ)) ∧
    (genomic_control [Real.sqrt GC_NUMBER]).2 = 1 ∧
    (genomic_control [Real.sqrt GC_NUMBER]).1 = [Real.sqrt GC_NUMBER] :=
  ⟨by simp,
    (genomic_control_claim [Real.sqrt GC_NUMBER] (by simp)).2.2 (by
      rw [List.map_cons, List.map_nil,
        Real.sq_sqrt (by norm_num [GC_NUMBER] : (0 : ℝ) ≤ GC_NUMBER)]
      exact npMedian_singleton GC_NUMBER)⟩

end SBrainXcan
